import Mathlib

/-!
Verification of the `datablock` package: a dual-representation byte container
(`DataBlock`, in `src/datablock.go`) that toggles between gzip-compressed and
uncompressed payloads, plus the HTTP content-negotiation logic (`ToClient`).

The gzip codec itself is the Go standard library `compress/gzip`, external to
the repository; it is modelled as an abstract `Codec` record (an encoder that
may fail, as injected in tests, and a decoder that fails on corrupt input).
All repository functions are translated directly from `src/datablock.go`.
`log.Fatal` (logrus) terminates the process, so paths that reach it are
modelled as a `fatal` outcome / `none` result: nothing after them executes.
-/

namespace Datablock

/-- Abstract model of the external gzip codec (`compress/gzip`, not part of
this repository). `enc speed data` returns `none` when the gzip writer fails
(as with injected failures), otherwise the gzip-framed bytes; `dec data`
returns `none` when `data` is not a valid gzip stream. -/
structure Codec where
  enc : Bool → List Nat → Option (List Nat)
  dec : List Nat → Option (List Nat)

/-- Response headers as an association list from header name to the list of
values, mirroring `net/http` `Header` for the keys used here. -/
abbrev Headers := List (String × List String)

def ceKey : String := "Content-Encoding"

def varyKey : String := "Vary"

def gzipVal : String := "gzip"

def identityVal : String := "identity"

def aeVal : String := "Accept-Encoding"

/-- `Header.Set`: replace all existing values of the key with the single
given value. -/
def setH : Headers → String → String → Headers
  | [], k, v => [(k, [v])]
  | (k', vs) :: t, k, v => if k' = k then (k, [v]) :: t else (k', vs) :: setH t k v

/-- `Header.Add`: append the value to the key's existing values. -/
def addH : Headers → String → String → Headers
  | [], k, v => [(k, [v])]
  | (k', vs) :: t, k, v => if k' = k then (k', vs ++ [v]) :: t else (k', vs) :: addH t k v

/-- Header lookup: the list of values stored for the key. -/
def getH : Headers → String → List String
  | [], _ => []
  | (k', vs) :: t, k => if k' = k then vs else getH t k

/-- `DataBlock` from `src/datablock.go`: payload bytes, compressed flag,
current length, and the speed-over-ratio compression preference. -/
structure DataBlock where
  data : List Nat
  compressed : Bool
  length : Nat
  compressionSpeed : Bool
  deriving Repr, DecidableEq

/-- `EmptyDataBlock` sentinel. -/
def EmptyDataBlock : DataBlock := ⟨[], false, 0, true⟩

/-- `NewDataBlock`: a new uncompressed data block. -/
def NewDataBlock (data : List Nat) (compressionSpeed : Bool) : DataBlock :=
  ⟨data, false, data.length, compressionSpeed⟩

/-- `newDataBlockSpecified`: a block whose data may already be compressed. -/
def newDataBlockSpecified (data : List Nat) (compressed compressionSpeed : Bool) : DataBlock :=
  ⟨data, compressed, data.length, compressionSpeed⟩

/-- Package-level `compress`: empty data short-circuits to empty output with
no error; otherwise gzip-encode, returning the bytes and their length, or
`none` on a writer failure. -/
def compress (c : Codec) (data : List Nat) (speed : Bool) : Option (List Nat × Nat) :=
  if data.length = 0 then some ([], 0)
  else
    match c.enc speed data with
    | none => none
    | some out => some (out, out.length)

/-- Package-level `decompress`: empty data short-circuits to empty output
with no error; otherwise gzip-decode, or `none` on corrupt input. -/
def decompress (c : Codec) (data : List Nat) : Option (List Nat × Nat) :=
  if data.length = 0 then some ([], 0)
  else
    match c.dec data with
    | none => none
    | some out => some (out, out.length)

/-- `UncompressedData`: the uncompressed data with its length, decompressing
if needed; `none` is the error case. -/
def DataBlock.UncompressedData (b : DataBlock) (c : Codec) : Option (List Nat × Nat) :=
  if b.compressed then decompress c b.data else some (b.data, b.length)

/-- `MustData`: the uncompressed data. On a decode failure the code calls
`log.Fatal`, which terminates the process, modelled as `none`; the
`return []byte\x7b\x7d` that follows it in the source is unreachable. -/
def DataBlock.MustData (b : DataBlock) (c : Codec) : Option (List Nat) :=
  if b.compressed then
    match decompress c b.data with
    | none => none
    | some (d, _) => some d
  else some b.data

/-- `Gzipped`: the compressed data with its length, compressing if needed. -/
def DataBlock.Gzipped (b : DataBlock) (c : Codec) : Option (List Nat × Nat) :=
  if !b.compressed then compress c b.data b.compressionSpeed
  else some (b.data, b.length)

/-- `Compress`: mutate the block in place to compressed form; the `Bool` is
the error flag (the block is returned unchanged when it is `true`). -/
def DataBlock.Compress (b : DataBlock) (c : Codec) : DataBlock × Bool :=
  if b.compressed then (b, false)
  else
    match compress c b.data b.compressionSpeed with
    | none => (b, true)
    | some (d, n) => ({ b with data := d, compressed := true, length := n }, false)

/-- `Decompress`: mutate the block in place to uncompressed form; the `Bool`
is the error flag (the block is returned unchanged when it is `true`). -/
def DataBlock.Decompress (b : DataBlock) (c : Codec) : DataBlock × Bool :=
  if !b.compressed then (b, false)
  else
    match decompress c b.data with
    | none => (b, true)
    | some (d, n) => ({ b with data := d, compressed := false, length := n }, false)

/-- `IsCompressed` accessor. -/
def DataBlock.IsCompressed (b : DataBlock) : Bool := b.compressed

/-- `Length` accessor: the length of the data in its current state. -/
def DataBlock.Length (b : DataBlock) : Nat := b.length

/-- `HasData`: true if there is data present. -/
def DataBlock.HasData (b : DataBlock) : Bool := decide (0 ≠ b.length)

/-- Outcome of `ToClient`: either the process terminated via `log.Fatal`
before reaching `http.ServeContent`, or `http.ServeContent` was invoked with
the final block state, the response headers, and the served bytes.
`attemptedCompress` records whether the `b.Compress()` call inside the
over-threshold branch ran; `encodeFailed` records whether that call failed
(reported through `log.Error`, a non-fatal side channel). -/
inductive ServeOutcome where
  | fatal : ServeOutcome
  | served (block : DataBlock) (headers : Headers) (body : List Nat)
      (attemptedCompress : Bool) (encodeFailed : Bool) : ServeOutcome
  deriving Repr, DecidableEq

/-- Whether the outcome includes an in-place compression attempt. -/
def ServeOutcome.attempted : ServeOutcome → Bool
  | .fatal => false
  | .served _ _ _ a _ => a

/-- `ToClient`, the content negotiator: decides compression and headers, then
delegates to `http.ServeContent` with the block's current bytes. `h0` is the
response writer's header state on entry. -/
def DataBlock.ToClient (b : DataBlock) (c : Codec) (h0 : Headers)
    (canGzip : Bool) (gzipThreshold : Int) : ServeOutcome :=
  let overThreshold : Bool := decide ((b.Length : Int) > gzipThreshold)
  if !canGzip then
    match b.Decompress c with
    | (_, true) => ServeOutcome.fatal
    | (b', false) => ServeOutcome.served b' h0 b'.data false false
  else if b.compressed || overThreshold then
    let h1 := addH (setH h0 ceKey gzipVal) varyKey aeVal
    if overThreshold then
      match b.Compress c with
      | (b', true) => ServeOutcome.served b' (setH h1 ceKey identityVal) b'.data true true
      | (b', false) => ServeOutcome.served b' h1 b'.data true false
    else ServeOutcome.served b h1 b.data false false
  else ServeOutcome.served b h0 b.data false false

/-- A concrete codec instance used for witnesses: gzip framing is modelled by
a three-byte header tag in front of the payload; anything not starting with
the tag is corrupt. -/
def modelCodec : Codec where
  enc := fun s d => some (31 :: 139 :: (if s then 1 else 0) :: d)
  dec := fun d =>
    match d with
    | 31 :: 139 :: _ :: rest => some rest
    | _ => none

/-- A codec whose encoder always fails, for encode-failure injection. -/
def failCodec : Codec where
  enc := fun _ _ => none
  dec := fun d =>
    match d with
    | 31 :: 139 :: _ :: rest => some rest
    | _ => none

/-! ## Header lemmas -/

theorem getH_setH_self (h : Headers) (k v : String) : getH (setH h k v) k = [v] := by
  induction h with
  | nil => simp [setH, getH]
  | cons p t ih =>
    obtain ⟨k', vs⟩ := p
    by_cases hk : k' = k <;> simp [setH, getH, hk, ih]

theorem getH_setH_ne (h : Headers) (k k' v : String) (hne : k' ≠ k) :
    getH (setH h k v) k' = getH h k' := by
  induction h with
  | nil => simp [setH, getH, Ne.symm hne]
  | cons p t ih =>
    obtain ⟨k'', vs⟩ := p
    by_cases hk : k'' = k
    · subst hk
      simp [setH, getH, Ne.symm hne]
    · simp [setH, getH, hk, ih]

theorem getH_addH_self (h : Headers) (k v : String) :
    getH (addH h k v) k = getH h k ++ [v] := by
  induction h with
  | nil => simp [addH, getH]
  | cons p t ih =>
    obtain ⟨k', vs⟩ := p
    by_cases hk : k' = k <;> simp [addH, getH, hk, ih]

theorem getH_addH_ne (h : Headers) (k k' v : String) (hne : k' ≠ k) :
    getH (addH h k v) k' = getH h k' := by
  induction h with
  | nil => simp [addH, getH, Ne.symm hne]
  | cons p t ih =>
    obtain ⟨k'', vs⟩ := p
    by_cases hk : k'' = k
    · subst hk
      simp [addH, getH, Ne.symm hne]
    · simp [addH, getH, hk, ih]

/-! ## Claims -/

/-- C1: for a gzip-capable client, `ToClient` attempts in-place compression
(the `b.Compress()` call in the over-threshold branch runs) exactly when the
block's current length — `b.Length`, which is the compressed length when the
block is already compressed — is strictly greater than the threshold. In
particular a block of length exactly `T` is not compressed and one of length
`T + 1` is. -/
theorem toClient_attempts_compress_iff (c : Codec) (b : DataBlock) (h0 : Headers) (T : Int) :
    (b.ToClient c h0 true T).attempted = decide ((b.Length : Int) > T) := by
  unfold DataBlock.ToClient
  cases hov : decide ((b.Length : Int) > T) <;>
    cases hc : b.compressed <;>
      simp only [hov, hc, Bool.not_true, Bool.false_or, Bool.true_or, Bool.or_false,
        Bool.or_true, if_true, if_false, ServeOutcome.attempted, Bool.false_eq_true,
        ite_false, ite_true, Bool.true_eq_false]
  · rcases b.Compress c with ⟨b', e⟩
    cases e <;> rfl
  · rcases b.Compress c with ⟨b', e⟩
    cases e <;> rfl

/-- C2: a block whose stored bytes fail to decompress, served to a client
that cannot accept gzip, terminates the process via `log.Fatal`:
`http.ServeContent` is never invoked (the outcome is `fatal`, not
`served`). -/
theorem toClient_nogzip_decode_failure_fatal (c : Codec) (b : DataBlock) (h0 : Headers)
    (T : Int) (hc : b.compressed = true) (hd : decompress c b.data = none) :
    b.ToClient c h0 false T = ServeOutcome.fatal := by
  unfold DataBlock.ToClient
  simp [DataBlock.Decompress, hc, hd]

theorem toClient_nogzip_decode_failure_fatal_witness :
    (DataBlock.mk [0] true 1 true).compressed = true ∧
      decompress modelCodec [0] = none ∧
      (DataBlock.mk [0] true 1 true).ToClient modelCodec [] false 0 = ServeOutcome.fatal :=
  ⟨rfl, by decide,
    toClient_nogzip_decode_failure_fatal modelCodec (DataBlock.mk [0] true 1 true) [] 0
      rfl (by decide)⟩

/-- C3: over-threshold block, gzip-capable client, failing in-place
compression: `ToClient` overrides `Content-Encoding` to `identity` and still
invokes `http.ServeContent` with the block's current (uncompressed) bytes —
the request completes instead of failing. -/
theorem toClient_encode_failure_identity_fallback (c : Codec) (b : DataBlock) (h0 : Headers)
    (T : Int) (hover : (b.Length : Int) > T) (hnc : b.compressed = false)
    (hfail : compress c b.data b.compressionSpeed = none) :
    b.ToClient c h0 true T =
      ServeOutcome.served b
        (setH (addH (setH h0 ceKey gzipVal) varyKey aeVal) ceKey identityVal) b.data true true
    ∧ getH (setH (addH (setH h0 ceKey gzipVal) varyKey aeVal) ceKey identityVal) ceKey
        = [identityVal] := by
  constructor
  · unfold DataBlock.ToClient
    simp [hover, hnc, DataBlock.Compress, hfail]
  · exact getH_setH_self _ _ _

theorem toClient_encode_failure_identity_fallback_witness :
    ((((DataBlock.mk [1] false 1 true).Length : Int) > 0) ∧
        (DataBlock.mk [1] false 1 true).compressed = false ∧
        compress failCodec [1] true = none) ∧
      (DataBlock.mk [1] false 1 true).ToClient failCodec [] true 0 =
        ServeOutcome.served (DataBlock.mk [1] false 1 true)
          (setH (addH (setH [] ceKey gzipVal) varyKey aeVal) ceKey identityVal) [1] true true :=
  ⟨⟨by decide, rfl, by decide⟩,
    (toClient_encode_failure_identity_fallback failCodec (DataBlock.mk [1] false 1 true) [] 0
      (by decide) rfl (by decide)).1⟩

/-- C4: an already-compressed block at or below the threshold, served to a
gzip-capable client, still gets `Content-Encoding: gzip` and
`Vary: Accept-Encoding` (the compressed flag bypasses the threshold check),
and no in-place compression is attempted (`attemptedCompress = false`). -/
theorem toClient_already_compressed_bypass (c : Codec) (b : DataBlock) (h0 : Headers) (T : Int)
    (hc : b.compressed = true) (hle : (b.Length : Int) ≤ T) :
    b.ToClient c h0 true T =
      ServeOutcome.served b (addH (setH h0 ceKey gzipVal) varyKey aeVal) b.data false false
    ∧ getH (addH (setH h0 ceKey gzipVal) varyKey aeVal) ceKey = [gzipVal]
    ∧ getH (addH (setH h0 ceKey gzipVal) varyKey aeVal) varyKey
        = getH h0 varyKey ++ [aeVal] := by
  refine ⟨?_, ?_, ?_⟩
  · unfold DataBlock.ToClient
    have hov : decide ((b.Length : Int) > T) = false := decide_eq_false (not_lt.mpr hle)
    simp [hc, hov]
  · rw [getH_addH_ne _ _ _ _ (by decide), getH_setH_self]
  · rw [getH_addH_self, getH_setH_ne _ _ _ _ (by decide)]

theorem toClient_already_compressed_bypass_witness :
    ((DataBlock.mk [9] true 1 true).compressed = true ∧
        (((DataBlock.mk [9] true 1 true).Length : Int) ≤ 5)) ∧
      (DataBlock.mk [9] true 1 true).ToClient modelCodec [] true 5 =
        ServeOutcome.served (DataBlock.mk [9] true 1 true)
          (addH (setH [] ceKey gzipVal) varyKey aeVal) [9] false false :=
  ⟨⟨rfl, by decide⟩,
    (toClient_already_compressed_bypass modelCodec (DataBlock.mk [9] true 1 true) [] 5
      rfl (by decide)).1⟩

/-- C5: a compressed block holding valid gzip bytes, served with
`canGzip = false`, is mutated to its uncompressed state before delegation,
and the response headers are left exactly as they were (in particular no
`Content-Encoding` header is set). -/
theorem toClient_nogzip_forces_uncompressed (c : Codec) (b : DataBlock) (h0 : Headers)
    (T : Int) (d : List Nat) (n : Nat) (hc : b.compressed = true)
    (hd : decompress c b.data = some (d, n)) :
    b.ToClient c h0 false T =
      ServeOutcome.served (DataBlock.mk d false n b.compressionSpeed) h0 d false false := by
  unfold DataBlock.ToClient
  simp [DataBlock.Decompress, hc, hd]

theorem toClient_nogzip_forces_uncompressed_witness :
    ((DataBlock.mk [31, 139, 0, 5] true 4 true).compressed = true ∧
        decompress modelCodec [31, 139, 0, 5] = some ([5], 1)) ∧
      (DataBlock.mk [31, 139, 0, 5] true 4 true).ToClient modelCodec [] false 100 =
        ServeOutcome.served (DataBlock.mk [5] false 1 true) [] [5] false false :=
  ⟨⟨rfl, by decide⟩,
    toClient_nogzip_forces_uncompressed modelCodec (DataBlock.mk [31, 139, 0, 5] true 4 true)
      [] 100 [5] 1 rfl (by decide)⟩

/-- C10: on the encode-failure fallback, only the `Content-Encoding` header
is overridden: the `Vary: Accept-Encoding` value added earlier on the gzip
branch remains, and every header key other than `Content-Encoding` and
`Vary` keeps exactly the value it had on entry. -/
theorem toClient_identity_fallback_preserves_other_headers (c : Codec) (b : DataBlock)
    (h0 : Headers) (T : Int) (hover : (b.Length : Int) > T) (hnc : b.compressed = false)
    (hfail : compress c b.data b.compressionSpeed = none) :
    ∃ h1, b.ToClient c h0 true T = ServeOutcome.served b h1 b.data true true
      ∧ getH h1 ceKey = [identityVal]
      ∧ getH h1 varyKey = getH h0 varyKey ++ [aeVal]
      ∧ ∀ k, k ≠ ceKey → k ≠ varyKey → getH h1 k = getH h0 k := by
  refine ⟨setH (addH (setH h0 ceKey gzipVal) varyKey aeVal) ceKey identityVal,
    ?_, getH_setH_self _ _ _, ?_, ?_⟩
  · unfold DataBlock.ToClient
    simp [hover, hnc, DataBlock.Compress, hfail]
  · rw [getH_setH_ne _ _ _ _ (by decide), getH_addH_self,
      getH_setH_ne _ _ _ _ (by decide)]
  · intro k hkce hkv
    rw [getH_setH_ne _ _ _ _ hkce, getH_addH_ne _ _ _ _ hkv, getH_setH_ne _ _ _ _ hkce]

theorem toClient_identity_fallback_preserves_other_headers_witness :
    ((((DataBlock.mk [2] false 1 false).Length : Int) > 0) ∧
        (DataBlock.mk [2] false 1 false).compressed = false ∧
        compress failCodec [2] false = none) ∧
      (∃ h1, (DataBlock.mk [2] false 1 false).ToClient failCodec [] true 0 =
          ServeOutcome.served (DataBlock.mk [2] false 1 false) h1 [2] true true
        ∧ getH h1 ceKey = [identityVal]
        ∧ getH h1 varyKey = getH [] varyKey ++ [aeVal]
        ∧ ∀ k, k ≠ ceKey → k ≠ varyKey → getH h1 k = getH [] k) :=
  ⟨⟨by decide, rfl, by decide⟩,
    toClient_identity_fallback_preserves_other_headers failCodec
      (DataBlock.mk [2] false 1 false) [] 0 (by decide) rfl (by decide)⟩

/-- C6: on a decode failure, `MustData` does not return the empty byte slice
its doc comment promises: the `log.Fatal` call terminates the process
(modelled `none`), making the subsequent `return []byte\x7b\x7d` unreachable.
Evaluated at the failing input: a compressed block over the single corrupt
byte `0`. -/
theorem mustData_terminates_on_decode_failure :
    (DataBlock.mk [0] true 1 true).MustData modelCodec = none ∧
      (DataBlock.mk [0] true 1 true).MustData modelCodec ≠ some [] := by
  exact ⟨rfl, by decide⟩

/-- The round-trip law of the model codec: decoding inverts encoding. -/
theorem modelCodec_round : ∀ sp x e, modelCodec.enc sp x = some e → modelCodec.dec e = some x := by
  intro sp x e h
  simp only [modelCodec] at h ⊢
  injection h with h
  subst h
  rfl

/-- If the package-level `compress` succeeds, the returned length is the
length of the returned bytes. -/
theorem compress_length (c : Codec) (data : List Nat) (s : Bool) (out : List Nat) (n : Nat)
    (h : compress c data s = some (out, n)) : n = out.length := by
  unfold compress at h
  split at h
  · injection h with h
    injection h with h1 h2
    subst h1
    subst h2
    rfl
  · cases he : c.enc s data <;> simp [he] at h
    obtain ⟨h1, h2⟩ := h
    subst h1
    exact h2.symm

/-- If the package-level `decompress` succeeds, the returned length is the
length of the returned bytes. -/
theorem decompress_length (c : Codec) (data out : List Nat) (n : Nat)
    (h : decompress c data = some (out, n)) : n = out.length := by
  unfold decompress at h
  split at h
  · injection h with h
    injection h with h1 h2
    subst h1
    subst h2
    rfl
  · cases he : c.dec data <;> simp [he] at h
    obtain ⟨h1, h2⟩ := h
    subst h1
    exact h2.symm

/-- C7: constructing an uncompressed block from `d`, then `Compress` followed
by `Decompress`, restores payload `d` and length `d.length`, with both calls
succeeding — assuming the external codec round-trips on `d` (its encoding
`e` is non-empty and decodes back to `d`). -/
theorem compress_decompress_roundtrip (c : Codec) (s : Bool) (d e : List Nat)
    (henc : c.enc s d = some e) (hne : e ≠ []) (hdec : c.dec e = some d) :
    (((NewDataBlock d s).Compress c).1.Decompress c).1.data = d
    ∧ (((NewDataBlock d s).Compress c).1.Decompress c).1.length = d.length
    ∧ ((NewDataBlock d s).Compress c).2 = false
    ∧ (((NewDataBlock d s).Compress c).1.Decompress c).2 = false := by
  by_cases hd0 : d = []
  · subst hd0
    simp [NewDataBlock, DataBlock.Compress, DataBlock.Decompress, compress, decompress]
  · have hd0' : d.length ≠ 0 := by simpa [List.length_eq_zero] using hd0
    have hne' : e.length ≠ 0 := by simpa [List.length_eq_zero] using hne
    simp [NewDataBlock, DataBlock.Compress, DataBlock.Decompress, compress, decompress,
      hd0', hne', henc, hdec]

theorem compress_decompress_roundtrip_witness :
    (modelCodec.enc true [1, 2] = some [31, 139, 1, 1, 2] ∧
        ([31, 139, 1, 1, 2] : List Nat) ≠ [] ∧
        modelCodec.dec [31, 139, 1, 1, 2] = some [1, 2]) ∧
      (((NewDataBlock [1, 2] true).Compress modelCodec).1.Decompress modelCodec).1.data
        = [1, 2] :=
  ⟨⟨by decide, by decide, by decide⟩,
    (compress_decompress_roundtrip modelCodec true [1, 2] [31, 139, 1, 1, 2]
      (by decide) (by decide) (by decide)).1⟩

/-- C8: the stored `length` field equals the byte length of the stored
payload after construction (both constructors) and after `Compress` and
`Decompress`, whether the call succeeds or fails (on failure the block is
unchanged, so the invariant carries over from the pre-state). -/
theorem length_matches_payload (c : Codec) (d : List Nat) (s cp : Bool) (b : DataBlock)
    (hb : b.length = b.data.length) :
    (NewDataBlock d s).length = (NewDataBlock d s).data.length
    ∧ (newDataBlockSpecified d cp s).length = (newDataBlockSpecified d cp s).data.length
    ∧ (b.Compress c).1.length = (b.Compress c).1.data.length
    ∧ (b.Decompress c).1.length = (b.Decompress c).1.data.length := by
  refine ⟨rfl, rfl, ?_, ?_⟩
  · unfold DataBlock.Compress
    split
    · exact hb
    · rcases hcmp : compress c b.data b.compressionSpeed with _ | ⟨out, n⟩
      · simpa [hcmp] using hb
      · simpa [hcmp] using compress_length c b.data b.compressionSpeed out n hcmp
  · unfold DataBlock.Decompress
    split
    · exact hb
    · rcases hdcm : decompress c b.data with _ | ⟨out, n⟩
      · simpa [hdcm] using hb
      · simpa [hdcm] using decompress_length c b.data out n hdcm

theorem length_matches_payload_witness :
    ((DataBlock.mk [7] false 1 true).length = (DataBlock.mk [7] false 1 true).data.length) ∧
      ((DataBlock.mk [7] false 1 true).Compress modelCodec).1.length
        = ((DataBlock.mk [7] false 1 true).Compress modelCodec).1.data.length :=
  ⟨rfl,
    (length_matches_payload modelCodec [1] true false (DataBlock.mk [7] false 1 true)
      rfl).2.2.1⟩

/-- Output of a successful package-level `compress` is decodable by the
package-level `decompress`, for a codec that decodes its own encodings. -/
theorem compress_output_decodes (c : Codec)
    (hround : ∀ sp x e, c.enc sp x = some e → c.dec e = some x)
    (data : List Nat) (s : Bool) (out : List Nat) (n : Nat)
    (h : compress c data s = some (out, n)) :
    ∃ r, decompress c out = some r := by
  unfold compress at h
  split at h
  · injection h with h
    injection h with h1 h2
    subst h1
    exact ⟨([], 0), rfl⟩
  · rcases he : c.enc s data with _ | v
    · simp [he] at h
    · simp [he] at h
      obtain ⟨h1, h2⟩ := h
      subst h1
      have hdo := hround s data v he
      rcases h0 : v.length with _ | m
      · exact ⟨([], 0), by simp [decompress, h0]⟩
      · exact ⟨(data, data.length), by simp [decompress, h0, hdo]⟩

/-- C9: the compressed flag and the payload's actual encoding never diverge,
and no partial state is observable: a failing `Compress`/`Decompress` leaves
the block unchanged; a successful one sets the flag together with the
payload; freshly constructed uncompressed blocks decode trivially;
decodability (the block's own `Decompress` succeeding) is preserved by both
operations, given that the external codec decodes its own encodings; and
`Compress` on an empty-payload block succeeds, yielding the compressed empty
block, which still decodes. -/
theorem compressed_flag_payload_coherence (c : Codec) (b : DataBlock) (d : List Nat) (s : Bool)
    (hround : ∀ sp x e, c.enc sp x = some e → c.dec e = some x) :
    ((b.Compress c).2 = true → (b.Compress c).1 = b)
    ∧ ((b.Decompress c).2 = true → (b.Decompress c).1 = b)
    ∧ ((b.Compress c).2 = false → (b.Compress c).1.compressed = true)
    ∧ ((b.Decompress c).2 = false → (b.Decompress c).1.compressed = false)
    ∧ (((NewDataBlock d s).Decompress c).2 = false)
    ∧ ((b.Decompress c).2 = false → ((b.Compress c).1.Decompress c).2 = false)
    ∧ ((b.Decompress c).2 = false → ((b.Decompress c).1.Decompress c).2 = false)
    ∧ ((NewDataBlock [] s).Compress c = (⟨[], true, 0, s⟩, false)
        ∧ (((NewDataBlock [] s).Compress c).1.Decompress c).2 = false) := by
  refine ⟨?_, ?_, ?_, ?_, ?_, ?_, ?_, ?_, ?_⟩
  · unfold DataBlock.Compress
    split
    · intro _
      rfl
    · rcases hcmp : compress c b.data b.compressionSpeed with _ | ⟨out, n⟩ <;>
        simp [hcmp]
  · unfold DataBlock.Decompress
    split
    · intro _
      rfl
    · rcases hdcm : decompress c b.data with _ | ⟨out, n⟩ <;>
        simp [hdcm]
  · unfold DataBlock.Compress
    rcases hcb : b.compressed with _ | _
    · rcases hcmp : compress c b.data b.compressionSpeed with _ | ⟨out, n⟩ <;>
        simp [hcb, hcmp]
    · simp [hcb]
  · unfold DataBlock.Decompress
    rcases hcb : b.compressed with _ | _
    · simp [hcb]
    · rcases hdcm : decompress c b.data with _ | ⟨out, n⟩ <;>
        simp [hcb, hdcm]
  · simp [NewDataBlock, DataBlock.Decompress]
  · intro hdec
    rcases hcb : b.compressed with _ | _
    · rcases hcmp : compress c b.data b.compressionSpeed with _ | ⟨out, n⟩
      · simp [DataBlock.Compress, hcb, hcmp, DataBlock.Decompress]
      · obtain ⟨r, hr⟩ := compress_output_decodes c hround b.data b.compressionSpeed out n hcmp
        rcases r with ⟨dd, nn⟩
        simp [DataBlock.Compress, hcb, hcmp, DataBlock.Decompress, hr]
    · simpa [DataBlock.Compress, hcb] using hdec
  · intro hdec
    unfold DataBlock.Decompress at hdec ⊢
    rcases hcb : b.compressed with _ | _
    · simp [hcb]
    · simp [hcb] at hdec ⊢
      rcases hdcm : decompress c b.data with _ | ⟨out, n⟩
      · simp [hdcm] at hdec
      · simp [hdcm]
  · rfl
  · rfl

theorem compressed_flag_payload_coherence_witness :
    (NewDataBlock [] true).Compress modelCodec = (⟨[], true, 0, true⟩, false)
      ∧ (((NewDataBlock [] true).Compress modelCodec).1.Decompress modelCodec).2 = false :=
  (compressed_flag_payload_coherence modelCodec (DataBlock.mk [3] false 1 true) [5] true
    modelCodec_round).2.2.2.2.2.2.2

end Datablock
